import Mathlib

/-!
Verification of `src/qudi/hardware/adlink/adlink_callback_functions.c`
(qudi-iqo-modules, adlink data-acquisition callback module).

The C module keeps all state in process-wide globals.  We collect the
globals the acquisition data path uses into one record `AdlinkState` and
translate each C function into a state-passing Lean function.

Modelling conventions:
* C sample memory (`short *` hardware buffers, the `short *` ring buffer,
  the `long long *` accumulator) is modelled as total functions
  `Nat → Int` from sample index to sample value, matching unchecked C
  pointer indexing.  `short` and `long long` values are modelled as `Int`;
  no claim exercises a wrap at the machine width (positions and sizes in
  every claim stay far below 2^32, counts below 2^63).
* `unsigned long` positions and sizes are modelled as `Nat`.  The one
  place where C unsigned arithmetic could differ from `Nat`/`Int`
  arithmetic (`total_buffer_length * buffer_size - current_writer_position`
  in `write_to_file`) is computed through `Int`; it coincides with the C
  value whenever the writer cursor is inside the ring
  (`current_writer_position ≤ total_buffer_length * buffer_size`), which
  is the cursor invariant of every claim that touches it.
* `buffer_id` is a C `short` that the switches compare against 0 and 1;
  it is modelled as `Int` (a switch with no matching case leaves the
  state unchanged, exactly like the C `switch` without a `default`).
-/

/-- The acquisition-path globals of `adlink_callback_functions.c`:
hardware double-buffer addresses, sizes, ring buffer (`total_buffer_address`),
accumulator (`qudi_buffer_address`), the two cursors, the slot id and the
drain-call counter.  Field names are the C global names. -/
structure AdlinkState where
  ai_buff1_address : Nat → Int
  ai_buff2_address : Nat → Int
  buffer_size : Nat
  total_buffer_address : Nat → Int
  qudi_buffer_address : Nat → Int
  total_buffer_length : Nat
  current_buffer_position : Nat
  current_writer_position : Nat
  number_of_measurements : Nat
  buffer_id : Int
  number_writer_called : Nat

/-- `memcpy(dst + dpos, src, n * sizeof(short))` on sample memory:
positions `[dpos, dpos+n)` of `dst` receive `src[0..n)`, everything
else is unchanged. -/
def memcpy_samples (dst : Nat → Int) (dpos : Nat) (src : Nat → Int) (n : Nat) :
    Nat → Int :=
  fun p => if dpos ≤ p ∧ p < dpos + n then src (p - dpos) else dst p

/-- C `copy_double_buffer_callback`: `switch (buffer_id)` copies the just
filled hardware buffer into the ring at `current_buffer_position`, advances
the write cursor by `buffer_size` and flips the slot id; afterwards the
cursor is wrapped to 0 once it reaches `total_buffer_length * buffer_size`.
A `buffer_id` that is neither 0 nor 1 matches no `case` and performs no
transfer (the C `switch` has no `default`). -/
def copy_double_buffer_callback (s : AdlinkState) : AdlinkState :=
  let s :=
    if s.buffer_id = 0 then
      { s with
        total_buffer_address :=
          memcpy_samples s.total_buffer_address s.current_buffer_position
            s.ai_buff1_address s.buffer_size,
        current_buffer_position := s.current_buffer_position + s.buffer_size,
        buffer_id := 1 }
    else if s.buffer_id = 1 then
      { s with
        total_buffer_address :=
          memcpy_samples s.total_buffer_address s.current_buffer_position
            s.ai_buff2_address s.buffer_size,
        current_buffer_position := s.current_buffer_position + s.buffer_size,
        buffer_id := 0 }
    else s
  if s.total_buffer_length * s.buffer_size ≤ s.current_buffer_position then
    { s with current_buffer_position := 0 }
  else s

/-- Inner loop of C `sum_buffer` with offset `off = i * buffer_size`:
`for (j = 0; j < n; j++) qudi_buffer_address[j] += buffer_address[off + j];`
modelled as the iterated pointwise update, iteration `j` applied after
iterations `0..j-1`. -/
def sum_buffer_inner (qudi buf : Nat → Int) (off : Nat) : Nat → (Nat → Int)
  | 0 => qudi
  | n + 1 =>
    Function.update (sum_buffer_inner qudi buf off n) n
      (sum_buffer_inner qudi buf off n n + buf (off + n))

/-- C `sum_buffer`: the outer loop `for (i = 0; i < nm; i++)` over
measurement blocks, each running the inner per-sample loop with offset
`i * buffer_size`.  Adds (widened to `long long`, modelled `Int`) the
samples of the given hardware buffer into the accumulator. -/
def sum_buffer (qudi buf : Nat → Int) (bs : Nat) : Nat → (Nat → Int)
  | 0 => qudi
  | i + 1 => sum_buffer_inner (sum_buffer qudi buf bs i) buf (i * bs) bs

/-- C `sum_buffer_callback`: `switch (buffer_id)` sums the just filled
hardware buffer into `qudi_buffer_address` and flips the slot id; ids
outside {0,1} match no `case` and do nothing. -/
def sum_buffer_callback (s : AdlinkState) : AdlinkState :=
  if s.buffer_id = 0 then
    { s with
      qudi_buffer_address :=
        sum_buffer s.qudi_buffer_address s.ai_buff1_address s.buffer_size
          s.number_of_measurements,
      buffer_id := 1 }
  else if s.buffer_id = 1 then
    { s with
      qudi_buffer_address :=
        sum_buffer s.qudi_buffer_address s.ai_buff2_address s.buffer_size
          s.number_of_measurements,
      buffer_id := 0 }
  else s

/-- State at measurement start: cursors and slot id reset to 0, the drain
counter 0; hardware buffers, ring content and accumulator content as the
host allocated them (`b1`, `b2`, `r0`, `q0`), sizes as configured. -/
def initial_state (b1 b2 r0 q0 : Nat → Int) (bs L nm : Nat) : AdlinkState :=
  { ai_buff1_address := b1
    ai_buff2_address := b2
    buffer_size := bs
    total_buffer_address := r0
    qudi_buffer_address := q0
    total_buffer_length := L
    current_buffer_position := 0
    current_writer_position := 0
    number_of_measurements := nm
    buffer_id := 0
    number_writer_called := 0 }

/-- C `write_to_file`: one drain write.  Increments `number_writer_called`;
computes `number_of_elements = (long long)current_buffer_position -
current_writer_position`, replaced by
`total_buffer_length * buffer_size - current_writer_position` when negative
(i.e. when the write cursor has wrapped past the read cursor); calls
`fwrite(&total_buffer_address[current_writer_position], ...,
number_of_elements, file_pointer)` and advances `current_writer_position`
by `number_of_elements`, wrapping it to 0 at the ring capacity.

`fwrite` is an external filesystem primitive; its result — the element
count it reports as actually written — enters as the parameter
`fwrite_reported` (a full write reports `number_of_elements`, a short
write or error reports less).  The returned triple is
(the C `int err` return value, i.e. the `fwrite` report;
the sample values `fwrite` actually wrote to storage, in order;
the new state).  Note the C code advances the cursor by
`number_of_elements` no matter what `fwrite` returned. -/
def write_to_file (s : AdlinkState) (fwrite_reported : Nat) :
    Int × List Int × AdlinkState :=
  let s := { s with number_writer_called := s.number_writer_called + 1 }
  let cap : Nat := s.total_buffer_length * s.buffer_size
  let number_of_elements : Int :=
    (s.current_buffer_position : Int) - (s.current_writer_position : Int)
  let number_of_elements : Int :=
    if number_of_elements < 0 then
      (cap : Int) - (s.current_writer_position : Int)
    else number_of_elements
  let n : Nat := number_of_elements.toNat
  let written : List Int :=
    List.take fwrite_reported
      (List.map (fun k => s.total_buffer_address (s.current_writer_position + k))
        (List.range n))
  let err : Int := (fwrite_reported : Int)
  let s := { s with current_writer_position := s.current_writer_position + n }
  let s :=
    if s.total_buffer_length * s.buffer_size ≤ s.current_writer_position then
      { s with current_writer_position := 0 }
    else s
  (err, written, s)

/-- One iteration of the C `file_writer` thread loop body (a drain tick):
if `current_writer_position == current_buffer_position` there is nothing to
do (the thread just sleeps); otherwise it runs `write_to_file`, discarding
its return value exactly as the C loop does.  Returns the new state and
`some` written samples when a write happened. -/
def file_writer_tick (s : AdlinkState) (fwrite_reported : Nat) :
    AdlinkState × Option (List Int) :=
  if s.current_writer_position = s.current_buffer_position then (s, none)
  else
    let r := write_to_file s fwrite_reported
    (r.2.2, some r.2.1)

/-- The file/thread globals of the C module used by the stop sequence:
`file_pointer` (a `FILE *`, `none` = NULL), `thread_handle` (`none` = NULL),
`thread_id` and the `file_writer_stop` flag. -/
structure FileWriterState where
  file_pointer : Option Unit
  thread_handle : Option Unit
  thread_id : Nat
  file_writer_stop : Nat

/-- External CRT primitive `fclose`.  On a valid stream it closes it and
returns 0.  On a NULL stream the C behavior is undefined; the Windows CRT's
parameter validation, when execution is allowed to continue, makes `fclose`
return EOF (-1) — that error return is what we model, so that the NULL-close
is observable in the result. -/
def fclose : Option Unit → Int
  | some _ => 0
  | none => -1

/-- C `close_file_writer`: `fclose(file_pointer); file_pointer = NULL;`
returns the `fclose` result. -/
def close_file_writer (s : FileWriterState) : Int × FileWriterState :=
  (fclose s.file_pointer, { s with file_pointer := none })

/-- C `close_file_writer_thread`: sets the stop flag, waits on and closes
the thread handle (`WaitForSingleObject` / `CloseHandle`, which on a NULL
handle fail and return immediately), NULLs the handle and id, calls
`close_file_writer` — discarding its return value — and returns 0. -/
def close_file_writer_thread (s : FileWriterState) : Int × FileWriterState :=
  let s := { s with file_writer_stop := 1 }
  let s := { s with thread_handle := none, thread_id := 0 }
  let r := close_file_writer s
  (0, r.2)

/-- C global `python_restart_function_ptr`, a function pointer with static
storage duration: zero-initialized to NULL (`none`) until
`set_restart_function_pointer` stores a function into it.  The hook is a
niladic `int (*)()`. -/
structure RestartConfig where
  python_restart_function_ptr : Option (Unit → Int)

/-- C `set_restart_function_pointer`: stores the supplied pointer. -/
def set_restart_function_pointer (_c : RestartConfig) (f : Unit → Int) :
    RestartConfig :=
  { python_restart_function_ptr := some f }

/-- A C call through a possibly-NULL function pointer: `some r` is the
hook's return value, `none` marks the call through a NULL pointer
(undefined behavior — a crash — in the C program). -/
def call_function_ptr (p : Option (Unit → Int)) : Option Int :=
  Option.map (fun f => f ()) p

/-- C `copy_double_buffer_callback_python_restart`: runs
`copy_double_buffer_callback()` and then unconditionally calls
`python_restart_function_ptr()` — there is no NULL check.  Returns the new
buffer state and the outcome of the hook call. -/
def copy_double_buffer_callback_python_restart (c : RestartConfig)
    (s : AdlinkState) : AdlinkState × Option Int :=
  let s := copy_double_buffer_callback s
  (s, call_function_ptr c.python_restart_function_ptr)

/-- One driver delivery in append mode, with the driver's slot alternation
in sync with the engine's `buffer_id` (the situation claimed): the driver
stores the chunk `c` into the hardware buffer designated by the current
`buffer_id` and then invokes the registered callback
`copy_double_buffer_callback`. -/
def deliver (s : AdlinkState) (c : List Int) : AdlinkState :=
  let s :=
    if s.buffer_id = 0 then
      { s with
        ai_buff1_address := fun p =>
          if p < s.buffer_size then c.getD p 0 else s.ai_buff1_address p }
    else if s.buffer_id = 1 then
      { s with
        ai_buff2_address := fun p =>
          if p < s.buffer_size then c.getD p 0 else s.ai_buff2_address p }
    else s
  copy_double_buffer_callback s

/-- One driver delivery in accumulate mode, driver slot alternation in sync
with `buffer_id`: the driver fills the active hardware buffer with the
`number_of_measurements * buffer_size` samples `c` and then invokes
`sum_buffer_callback`. -/
def deliver_acc (s : AdlinkState) (c : List Int) : AdlinkState :=
  let s :=
    if s.buffer_id = 0 then
      { s with
        ai_buff1_address := fun p =>
          if p < s.number_of_measurements * s.buffer_size then c.getD p 0
          else s.ai_buff1_address p }
    else if s.buffer_id = 1 then
      { s with
        ai_buff2_address := fun p =>
          if p < s.number_of_measurements * s.buffer_size then c.getD p 0
          else s.ai_buff2_address p }
    else s
  sum_buffer_callback s

/-- The cursor-range invariant of the spec's data model:
`0 ≤ W < L*buffer_size` and `0 ≤ R < L*buffer_size` (the lower bounds are
inherent in `Nat`). -/
def CursorInvariant (s : AdlinkState) : Prop :=
  s.current_buffer_position < s.total_buffer_length * s.buffer_size ∧
    s.current_writer_position < s.total_buffer_length * s.buffer_size

instance (s : AdlinkState) : Decidable (CursorInvariant s) := by
  unfold CursorInvariant; infer_instance

/-- Zero-filled sample memory, used for concrete instances. -/
def zbuf : Nat → Int := fun _ => 0

/-- A concrete configured state: `buffer_size = 4`, `L = 2`,
`number_of_measurements = 1`, everything zeroed. -/
def s_demo : AdlinkState := initial_state zbuf zbuf zbuf zbuf 4 2 1

/-- Effect of one in-sync append-mode delivery on every field, for a slot
id in {0,1}: the chunk lands at `[W, W+buffer_size)` of the ring, the
write cursor advances (wrapping at capacity), the slot id flips, nothing
else moves. -/
theorem deliver_eq (s : AdlinkState) (c : List Int)
    (h : s.buffer_id = 0 ∨ s.buffer_id = 1) :
    (deliver s c).total_buffer_address = (fun p =>
        if s.current_buffer_position ≤ p ∧
            p < s.current_buffer_position + s.buffer_size then
          c.getD (p - s.current_buffer_position) 0
        else s.total_buffer_address p) ∧
      (deliver s c).current_buffer_position =
        (if s.total_buffer_length * s.buffer_size ≤
            s.current_buffer_position + s.buffer_size then 0
         else s.current_buffer_position + s.buffer_size) ∧
      (deliver s c).buffer_id = 1 - s.buffer_id ∧
      (deliver s c).buffer_size = s.buffer_size ∧
      (deliver s c).total_buffer_length = s.total_buffer_length ∧
      (deliver s c).current_writer_position = s.current_writer_position := by
  have hfun : ∀ (old fb : Nat → Int),
      memcpy_samples old s.current_buffer_position
          (fun p => if p < s.buffer_size then c.getD p 0 else fb p)
          s.buffer_size
        = fun p =>
          if s.current_buffer_position ≤ p ∧
              p < s.current_buffer_position + s.buffer_size then
            c.getD (p - s.current_buffer_position) 0
          else old p := by
    intro old fb
    funext p
    by_cases hp : s.current_buffer_position ≤ p ∧
        p < s.current_buffer_position + s.buffer_size
    · simp only [memcpy_samples, if_pos hp]
      rw [if_pos (by omega)]
    · simp only [memcpy_samples, if_neg hp]
  rcases h with h | h <;>
    · simp only [deliver, copy_double_buffer_callback, h]
      norm_num
      constructor
      · split <;> simpa using hfun _ _
      constructor
      · split <;> simp_all
      · split <;> simp_all

/-- Value of the C `sum_buffer` inner loop with offset `off` after `n`
iterations: positions below `n` have received `buf (off + j)`, the rest
are untouched. -/
theorem sum_buffer_inner_apply (qudi buf : Nat → Int) (off n x : Nat) :
    sum_buffer_inner qudi buf off n x =
      if x < n then qudi x + buf (off + x) else qudi x := by
  induction n with
  | zero => simp [sum_buffer_inner]
  | succ n ih =>
    unfold sum_buffer_inner
    rcases eq_or_ne x n with rfl | hx
    · rw [Function.update_same, ih]
      simp
    · rw [Function.update_noteq hx, ih]
      split <;> split <;> first | rfl | omega

/-- Value of C `sum_buffer` after all `nm` outer iterations: each
accumulator slot `x < buffer_size` gains the sum of the samples at
positions `i * buffer_size + x` over all measurement blocks `i < nm`. -/
theorem sum_buffer_apply (qudi buf : Nat → Int) (bs nm x : Nat) :
    sum_buffer qudi buf bs nm x =
      if x < bs then qudi x + ∑ i ∈ Finset.range nm, buf (i * bs + x)
      else qudi x := by
  induction nm with
  | zero => simp [sum_buffer]
  | succ n ih =>
    unfold sum_buffer
    rw [sum_buffer_inner_apply, ih]
    by_cases hx : x < bs
    · simp only [if_pos hx, Finset.sum_range_succ]
      ring
    · simp [hx]

/-- C5: the Transfer Engine flips the Buffer Slot Id 0↔1 on every
invocation, in append mode (`copy_double_buffer_callback`) and in
accumulate mode (`sum_buffer_callback`) alike, so across successive
invocations the slot id strictly alternates 0,1,0,1,... -/
theorem transfer_engine_flips_slot_id (s : AdlinkState)
    (h : s.buffer_id = 0 ∨ s.buffer_id = 1) :
    (copy_double_buffer_callback s).buffer_id = 1 - s.buffer_id ∧
      (sum_buffer_callback s).buffer_id = 1 - s.buffer_id := by
  rcases h with h | h <;>
    · constructor
      · simp only [copy_double_buffer_callback, h]
        norm_num
        split <;> simp
      · simp only [sum_buffer_callback, h]
        norm_num

/-- Witness for C5 at the concrete configured state (slot id 0). -/
theorem transfer_engine_flips_slot_id_witness :
    (copy_double_buffer_callback s_demo).buffer_id = 1 - s_demo.buffer_id ∧
      (sum_buffer_callback s_demo).buffer_id = 1 - s_demo.buffer_id :=
  transfer_engine_flips_slot_id s_demo (Or.inl rfl)

/-- C4: the cursor-range invariant `0 ≤ W < L*buffer_size`,
`0 ≤ R < L*buffer_size` holds in the initial state (both cursors 0, for
any positively configured sizes) and is preserved by every Transfer
Engine invocation (append mode, accumulate mode) and by every drain tick
of the `file_writer` loop. -/
theorem cursor_invariant_holds (b1 b2 r0 q0 : Nat → Int) (bs L nm : Nat)
    (hbs : 0 < bs) (hL : 0 < L) :
    CursorInvariant (initial_state b1 b2 r0 q0 bs L nm) ∧
      (∀ s, CursorInvariant s →
        CursorInvariant (copy_double_buffer_callback s)) ∧
      (∀ s, CursorInvariant s → CursorInvariant (sum_buffer_callback s)) ∧
      (∀ s a, CursorInvariant s → CursorInvariant (file_writer_tick s a).1) := by
  refine ⟨⟨Nat.mul_pos hL hbs, Nat.mul_pos hL hbs⟩, ?_, ?_, ?_⟩
  · rintro s ⟨h1, h2⟩
    unfold copy_double_buffer_callback
    dsimp only
    by_cases h0 : s.buffer_id = 0
    · rw [if_pos h0]
      dsimp only
      split_ifs <;> (dsimp only [CursorInvariant]; omega)
    · rw [if_neg h0]
      by_cases h1' : s.buffer_id = 1
      · rw [if_pos h1']
        dsimp only
        split_ifs <;> (dsimp only [CursorInvariant]; omega)
      · rw [if_neg h1']
        split_ifs <;> (dsimp only [CursorInvariant]; omega)
  · rintro s ⟨h1, h2⟩
    unfold sum_buffer_callback
    split <;> try split
    all_goals exact ⟨h1, h2⟩
  · rintro s a ⟨h1, h2⟩
    unfold file_writer_tick
    dsimp only
    split
    · exact ⟨h1, h2⟩
    · unfold write_to_file
      dsimp only
      split_ifs <;> (dsimp only [CursorInvariant]; omega)

/-- Witness for C4: invariant holds at the demo configuration and is kept
by one append-mode invocation from the demo state. -/
theorem cursor_invariant_holds_witness :
    CursorInvariant (initial_state zbuf zbuf zbuf zbuf 4 2 1) ∧
      CursorInvariant (copy_double_buffer_callback s_demo) :=
  ⟨(cursor_invariant_holds zbuf zbuf zbuf zbuf 4 2 1 (by decide) (by decide)).1,
    (cursor_invariant_holds zbuf zbuf zbuf zbuf 4 2 1 (by decide)
          (by decide)).2.1
      s_demo (by decide)⟩

/-- C2: a drain tick that finds `R ≠ W` (cursors inside the ring of
capacity `cap = L*buffer_size`) writes to storage exactly, and in order,
the samples that were in the ring region `[R_old, R_old + n)` at read
time, where the run length `n` is the minimum of the circular distance
from `R` to the observed `W` and the run up to the buffer end
(`min(W - R circularly, cap - R)` — when `W` has wrapped past `R` the run
extends only up to the buffer end); it advances `R` to `(R_old + n) % cap`,
never moving it beyond the observed `W` (`n` never exceeds the circular
distance).  `n` is the element count the tick hands to `fwrite`, so the
hypothesis `a = n` is the successful-write case. -/
theorem drain_tick_round_trip (s : AdlinkState) (a : Nat)
    (hne : s.current_writer_position ≠ s.current_buffer_position)
    (hR : s.current_writer_position < s.total_buffer_length * s.buffer_size)
    (hW : s.current_buffer_position < s.total_buffer_length * s.buffer_size)
    (ha : a = min
      (if s.current_writer_position ≤ s.current_buffer_position
        then s.current_buffer_position - s.current_writer_position
        else s.total_buffer_length * s.buffer_size +
          s.current_buffer_position - s.current_writer_position)
      (s.total_buffer_length * s.buffer_size - s.current_writer_position)) :
    (file_writer_tick s a).2 =
        some (List.map
          (fun k => s.total_buffer_address (s.current_writer_position + k))
          (List.range a)) ∧
      (file_writer_tick s a).1.current_writer_position =
        (s.current_writer_position + a) %
          (s.total_buffer_length * s.buffer_size) ∧
      a ≤ (if s.current_writer_position ≤ s.current_buffer_position
        then s.current_buffer_position - s.current_writer_position
        else s.total_buffer_length * s.buffer_size +
          s.current_buffer_position - s.current_writer_position) := by
  unfold file_writer_tick write_to_file
  rw [if_neg hne]
  dsimp only
  by_cases hcase : s.current_writer_position ≤ s.current_buffer_position
  · have hlt : s.current_writer_position < s.current_buffer_position := by
      omega
    rw [if_neg (show ¬((s.current_buffer_position : Int) -
        (s.current_writer_position : Int) < 0) by omega)]
    have hn : ((s.current_buffer_position : Int) -
        (s.current_writer_position : Int)).toNat =
          s.current_buffer_position - s.current_writer_position := by omega
    have han : a = s.current_buffer_position - s.current_writer_position := by
      rw [ha, if_pos hcase]; omega
    rw [hn, ← han]
    have hwrap : ¬(s.total_buffer_length * s.buffer_size ≤
        s.current_writer_position + a) := by omega
    rw [if_neg hwrap]
    refine ⟨?_, ?_, by rw [if_pos hcase]; try omega⟩
    · rw [List.take_of_length_le (by simp)]
    · dsimp only
      rw [Nat.mod_eq_of_lt (by omega)]
  · rw [if_pos (show (s.current_buffer_position : Int) -
        (s.current_writer_position : Int) < 0 by omega)]
    have hn : ((s.total_buffer_length * s.buffer_size : Nat) -
        (s.current_writer_position : Int)).toNat =
          s.total_buffer_length * s.buffer_size -
            s.current_writer_position := by omega
    have han : a = s.total_buffer_length * s.buffer_size -
        s.current_writer_position := by
      rw [ha, if_neg hcase]; omega
    rw [hn, ← han]
    have hwrap : s.total_buffer_length * s.buffer_size ≤
        s.current_writer_position + a := by omega
    rw [if_pos hwrap]
    refine ⟨?_, ?_, by rw [if_neg hcase]; try omega⟩
    · rw [List.take_of_length_le (by simp)]
    · dsimp only
      have : s.current_writer_position + a =
          s.total_buffer_length * s.buffer_size := by omega
      rw [this, Nat.mod_self]

/-- Witness for C2: the spec scenario (`buffer_size = 4`, `L = 2`, drain
tick after the first delivery, `R = 0`, `W = 4`): the tick writes
[1,2,3,4] and advances `R` to 4. -/
theorem drain_tick_round_trip_witness :
    (file_writer_tick (deliver s_demo [1, 2, 3, 4]) 4).2 =
        some (List.map
          (fun k => (deliver s_demo [1, 2, 3, 4]).total_buffer_address
            ((deliver s_demo [1, 2, 3, 4]).current_writer_position + k))
          (List.range 4)) ∧
      (file_writer_tick (deliver s_demo [1, 2, 3, 4]) 4).1.current_writer_position
          = ((deliver s_demo [1, 2, 3, 4]).current_writer_position + 4) %
            ((deliver s_demo [1, 2, 3, 4]).total_buffer_length *
              (deliver s_demo [1, 2, 3, 4]).buffer_size) ∧
      4 ≤ (if (deliver s_demo [1, 2, 3, 4]).current_writer_position ≤
            (deliver s_demo [1, 2, 3, 4]).current_buffer_position
        then (deliver s_demo [1, 2, 3, 4]).current_buffer_position -
          (deliver s_demo [1, 2, 3, 4]).current_writer_position
        else (deliver s_demo [1, 2, 3, 4]).total_buffer_length *
            (deliver s_demo [1, 2, 3, 4]).buffer_size +
          (deliver s_demo [1, 2, 3, 4]).current_buffer_position -
          (deliver s_demo [1, 2, 3, 4]).current_writer_position) :=
  drain_tick_round_trip (deliver s_demo [1, 2, 3, 4]) 4 (by decide) (by decide)
    (by decide) (by decide)

/-- C10: under in-bounds cursors, the region a drain write reads is the
single contiguous run `[R, R+n)` with `R + n ≤ L*buffer_size`: every
sample handed to `fwrite` comes from a slot index below the ring
capacity, and the run never crosses the ring buffer's end (whatever
element count `a` the `fwrite` call ends up reporting). -/
theorem drain_write_region_in_bounds (s : AdlinkState) (a : Nat)
    (hR : s.current_writer_position < s.total_buffer_length * s.buffer_size)
    (hW : s.current_buffer_position < s.total_buffer_length * s.buffer_size) :
    let n := if s.current_writer_position ≤ s.current_buffer_position
      then s.current_buffer_position - s.current_writer_position
      else s.total_buffer_length * s.buffer_size - s.current_writer_position
    s.current_writer_position + n ≤
        s.total_buffer_length * s.buffer_size ∧
      (∀ k, k < n →
        s.current_writer_position + k <
          s.total_buffer_length * s.buffer_size) ∧
      (write_to_file s a).2.1 =
        List.take a (List.map
          (fun k => s.total_buffer_address (s.current_writer_position + k))
          (List.range n)) := by
  intro n
  have hn : n = if s.current_writer_position ≤ s.current_buffer_position
      then s.current_buffer_position - s.current_writer_position
      else s.total_buffer_length * s.buffer_size -
        s.current_writer_position := rfl
  refine ⟨?_, ?_, ?_⟩
  · rw [hn]; split_ifs <;> omega
  · intro k hk
    rw [hn] at hk
    revert hk
    split_ifs <;> omega
  · unfold write_to_file
    dsimp only
    by_cases hcase : s.current_writer_position ≤ s.current_buffer_position
    · rw [if_neg (show ¬((s.current_buffer_position : Int) -
          (s.current_writer_position : Int) < 0) by omega)]
      have : ((s.current_buffer_position : Int) -
          (s.current_writer_position : Int)).toNat = n := by
        rw [hn, if_pos hcase]; omega
      rw [this]
    · rw [if_pos (show (s.current_buffer_position : Int) -
          (s.current_writer_position : Int) < 0 by omega)]
      have : ((s.total_buffer_length * s.buffer_size : Nat) -
          (s.current_writer_position : Int)).toNat = n := by
        rw [hn, if_neg hcase]; omega
      rw [this]

/-- Witness for C10 at the state after one demo delivery (`R = 0`,
`W = 4`, capacity 8), with a short `fwrite` report of 2. -/
theorem drain_write_region_in_bounds_witness :
    (deliver s_demo [1, 2, 3, 4]).current_writer_position +
          (if (deliver s_demo [1, 2, 3, 4]).current_writer_position ≤
              (deliver s_demo [1, 2, 3, 4]).current_buffer_position
            then (deliver s_demo [1, 2, 3, 4]).current_buffer_position -
              (deliver s_demo [1, 2, 3, 4]).current_writer_position
            else (deliver s_demo [1, 2, 3, 4]).total_buffer_length *
                (deliver s_demo [1, 2, 3, 4]).buffer_size -
              (deliver s_demo [1, 2, 3, 4]).current_writer_position) ≤
        (deliver s_demo [1, 2, 3, 4]).total_buffer_length *
          (deliver s_demo [1, 2, 3, 4]).buffer_size :=
  (drain_write_region_in_bounds (deliver s_demo [1, 2, 3, 4]) 2 (by decide)
    (by decide)).1

/-- N in-sync append-mode deliveries from the measurement-start state:
fold `deliver` over the chunk list. -/
def run_append (b1 b2 r0 q0 : Nat → Int) (bs L nm : Nat)
    (cs : List (List Int)) : AdlinkState :=
  List.foldl deliver (initial_state b1 b2 r0 q0 bs L nm) cs

/-- N in-sync accumulate-mode deliveries from the measurement-start
state: fold `deliver_acc` over the list of delivered buffer contents. -/
def run_acc (b1 b2 r0 q0 : Nat → Int) (bs L nm : Nat)
    (cs : List (List Int)) : AdlinkState :=
  List.foldl deliver_acc (initial_state b1 b2 r0 q0 bs L nm) cs

theorem run_append_snoc (b1 b2 r0 q0 : Nat → Int) (bs L nm : Nat)
    (cs : List (List Int)) (c : List Int) :
    run_append b1 b2 r0 q0 bs L nm (cs ++ [c]) =
      deliver (run_append b1 b2 r0 q0 bs L nm cs) c := by
  simp [run_append, List.foldl_append]

theorem run_acc_snoc (b1 b2 r0 q0 : Nat → Int) (bs L nm : Nat)
    (cs : List (List Int)) (c : List Int) :
    run_acc b1 b2 r0 q0 bs L nm (cs ++ [c]) =
      deliver_acc (run_acc b1 b2 r0 q0 bs L nm cs) c := by
  simp [run_acc, List.foldl_append]

/-- Effect of one in-sync accumulate-mode delivery for a slot id in
{0,1}: every accumulator slot `j < buffer_size` gains the sum over the
`number_of_measurements` blocks of the delivered content at
`i * buffer_size + j`, and the slot id flips. -/
theorem deliver_acc_eq (s : AdlinkState) (c : List Int)
    (h : s.buffer_id = 0 ∨ s.buffer_id = 1) :
    (∀ j, (deliver_acc s c).qudi_buffer_address j =
        if j < s.buffer_size then
          s.qudi_buffer_address j +
            ∑ i ∈ Finset.range s.number_of_measurements,
              c.getD (i * s.buffer_size + j) 0
        else s.qudi_buffer_address j) ∧
      (deliver_acc s c).buffer_id = 1 - s.buffer_id ∧
      (deliver_acc s c).buffer_size = s.buffer_size ∧
      (deliver_acc s c).number_of_measurements = s.number_of_measurements := by
  have key : ∀ (fb : Nat → Int) (j : Nat),
      sum_buffer s.qudi_buffer_address
          (fun p => if p < s.number_of_measurements * s.buffer_size
            then c.getD p 0 else fb p)
          s.buffer_size s.number_of_measurements j =
        if j < s.buffer_size then
          s.qudi_buffer_address j +
            ∑ i ∈ Finset.range s.number_of_measurements,
              c.getD (i * s.buffer_size + j) 0
        else s.qudi_buffer_address j := by
    intro fb j
    rw [sum_buffer_apply]
    split_ifs with hj
    · congr 1
      refine Finset.sum_congr rfl ?_
      intro i hi
      have hi' : i < s.number_of_measurements := Finset.mem_range.mp hi
      have hlt : i * s.buffer_size + j <
          s.number_of_measurements * s.buffer_size := by
        calc i * s.buffer_size + j < i * s.buffer_size + s.buffer_size := by
              omega
          _ = (i + 1) * s.buffer_size := by rw [Nat.succ_mul]
          _ ≤ s.number_of_measurements * s.buffer_size :=
              Nat.mul_le_mul_right _ hi'
      rw [if_pos hlt]
    · rfl
  simp only [List.getD_eq_getElem?_getD] at key
  rcases h with h | h <;>
    · simp only [deliver_acc, sum_buffer_callback, h]
      norm_num
      intro j
      first
      | exact key s.ai_buff1_address j
      | exact key s.ai_buff2_address j

/-- Accumulate mode after any number of in-sync deliveries: bookkeeping
fields, slot-id parity and the closed form of every accumulator slot. -/
theorem acc_foldl_spec (b1 b2 r0 q0 : Nat → Int) (bs L nm : Nat) :
    ∀ cs : List (List Int),
      (run_acc b1 b2 r0 q0 bs L nm cs).buffer_size = bs ∧
        (run_acc b1 b2 r0 q0 bs L nm cs).number_of_measurements = nm ∧
        (run_acc b1 b2 r0 q0 bs L nm cs).buffer_id =
          ((cs.length % 2 : Nat) : Int) ∧
        ∀ j, j < bs →
          (run_acc b1 b2 r0 q0 bs L nm cs).qudi_buffer_address j =
            q0 j + (cs.map
              (fun c => ∑ i ∈ Finset.range nm, c.getD (i * bs + j) 0)).sum := by
  intro cs
  induction cs using List.reverseRecOn with
  | nil =>
    refine ⟨rfl, rfl, rfl, ?_⟩
    intro j hj
    simp [run_acc, initial_state]
  | append_singleton cs c ih =>
    obtain ⟨hbs', hnm', hid, hq⟩ := ih
    rw [run_acc_snoc]
    set s := run_acc b1 b2 r0 q0 bs L nm cs with hs
    have hslot : s.buffer_id = 0 ∨ s.buffer_id = 1 := by
      rw [hid]
      rcases Nat.mod_two_eq_zero_or_one cs.length with h2 | h2 <;> simp [h2]
    obtain ⟨hqd, hid2, hbs2, hnm2⟩ := deliver_acc_eq s c hslot
    refine ⟨by rw [hbs2, hbs'], by rw [hnm2, hnm'], ?_, ?_⟩
    · rw [hid2, hid]
      have hlen : (cs ++ [c]).length = cs.length + 1 := by simp
      rw [hlen]
      rcases Nat.mod_two_eq_zero_or_one cs.length with h2 | h2
      · have h3 : (cs.length + 1) % 2 = 1 := by omega
        rw [h2, h3]
        norm_num
      · have h3 : (cs.length + 1) % 2 = 0 := by omega
        rw [h2, h3]
        norm_num
    · intro j hj
      rw [hqd j, hbs', hnm', if_pos hj, hq j hj]
      simp [add_assoc]

/-- C6 evaluation at the failing input: ring capacity 8, `R = 0`,
`W = 4` (the state after one demo delivery), and `fwrite` reports a short
write of only 2 of the 4 requested elements.  `write_to_file`
nevertheless advances the read cursor by the full 4 elements, and the
drain-loop tick discards the error return entirely. -/
theorem storage_short_write_cursor_overrun :
    ((write_to_file (deliver s_demo [1, 2, 3, 4]) 2).2.1).length = 2 ∧
      (write_to_file (deliver s_demo [1, 2, 3, 4])
          2).2.2.current_writer_position = 4 ∧
      (file_writer_tick (deliver s_demo [1, 2, 3, 4])
          2).1.current_writer_position = 4 := by
  refine ⟨rfl, ?_, ?_⟩ <;> decide

/-- C7 evaluation at the failing input: `buffer_size = 4`, `L = 2`,
three chunks delivered before any drain tick.  The third delivery
overwrites ring positions [0..3] (now 9..12) while `R` is still 0: the
first chunk's unflushed samples are silently lost, and the state carries
no overflow flag or counter that could report it. -/
theorem overflow_silently_overwrites :
    (run_append zbuf zbuf zbuf zbuf 4 2 1
        [[1, 2, 3, 4], [5, 6, 7, 8], [9, 10, 11, 12]]).current_writer_position
        = 0 ∧
      (run_append zbuf zbuf zbuf zbuf 4 2 1
        [[1, 2, 3, 4], [5, 6, 7, 8], [9, 10, 11, 12]]).total_buffer_address 0
        = 9 ∧
      (run_append zbuf zbuf zbuf zbuf 4 2 1
        [[1, 2, 3, 4], [5, 6, 7, 8], [9, 10, 11, 12]]).total_buffer_address 3
        = 12 ∧
      (run_append zbuf zbuf zbuf zbuf 4 2 1
        [[1, 2, 3, 4], [5, 6, 7, 8], [9, 10, 11, 12]]).current_buffer_position
        = 4 := by
  refine ⟨?_, ?_, ?_, ?_⟩ <;> decide

/-- A started file-writer configuration: open stream, live thread. -/
def fw_demo : FileWriterState :=
  { file_pointer := some ()
    thread_handle := some ()
    thread_id := 7
    file_writer_stop := 0 }

/-- C8 evaluation at the failing input (the stop sequence called twice):
after the first `close_file_writer_thread` the `FILE *` is already NULL,
yet the second call still reaches `fclose` on that NULL stream (modeled
as the CRT's EOF return; in C this is undefined behavior) and itself
returns 0 — it neither no-ops nor reports "already stopped". -/
theorem double_stop_reaches_null_fclose :
    (close_file_writer_thread fw_demo).2.file_pointer = none ∧
      (close_file_writer ((close_file_writer_thread fw_demo).2)).1 = -1 ∧
      (close_file_writer_thread ((close_file_writer_thread fw_demo).2)).1
        = 0 := by
  refine ⟨rfl, ?_, ?_⟩ <;> decide

/-- C9 evaluation at the failing input: with no restart hook ever
registered (`python_restart_function_ptr` is the zero-initialized NULL),
`copy_double_buffer_callback_python_restart` still calls through the
pointer — the hook step is a NULL call (`none`, undefined behavior in C),
not a no-op — although the transfer and flip themselves complete; with a
hook registered, the call yields exactly its value, after the transfer. -/
theorem restart_hook_null_call :
    (copy_double_buffer_callback_python_restart
        { python_restart_function_ptr := none } s_demo).2 = none ∧
      (copy_double_buffer_callback_python_restart
          { python_restart_function_ptr := none } s_demo).1 =
        copy_double_buffer_callback s_demo ∧
      (copy_double_buffer_callback_python_restart
          (set_restart_function_pointer
            { python_restart_function_ptr := none } (fun _ => 42))
          s_demo).2 = some 42 :=
  ⟨rfl, rfl, rfl⟩

/-- Accumulate-mode hardware buffer holding two measurement blocks
(samples 5 and 7) for a one-sample chunk size. -/
def acc_buf : Nat → Int := fun p => List.getD [5, 7] p 0

/-- A configured accumulate-mode state with `buffer_size = 1`,
`number_of_measurements = 2`. -/
def s_acc : AdlinkState := initial_state acc_buf zbuf zbuf zbuf 1 1 2

/-- C3 counterexample: with `number_of_measurements = 2`, one
accumulate-mode invocation does NOT add (only) the sample at position
`j` of the indicated hardware buffer into `Accumulator[j]`: at `j = 0`
the code adds both blocks' samples (5 + 7 = 12), not the sample at
position 0 (5). -/
theorem accumulate_single_sample_claim_false :
    (sum_buffer_callback s_acc).qudi_buffer_address 0 ≠
      s_acc.qudi_buffer_address 0 + s_acc.ai_buff1_address 0 := by
  decide

/-- C3 (amended): in accumulate mode, each invocation adds, for every
sample position `j < buffer_size`, the samples at positions
`i * buffer_size + j` of the indicated Hardware Buffer for all
measurement blocks `i < number_of_measurements` (widened to `Int`), so
after N in-sync deliveries `Accumulator[j]` equals the sum over the N
delivered contents of the per-`j` block sums.  (For
`number_of_measurements = 1` this is the claim's single-sample form.) -/
theorem accumulate_mode_sums (b1 b2 r0 q0 : Nat → Int) (bs L nm : Nat)
    (cs : List (List Int)) (j : Nat) (hj : j < bs) :
    (run_acc b1 b2 r0 q0 bs L nm cs).qudi_buffer_address j =
      q0 j + (cs.map
        (fun c => ∑ i ∈ Finset.range nm, c.getD (i * bs + j) 0)).sum :=
  (acc_foldl_spec b1 b2 r0 q0 bs L nm cs).2.2.2 j hj

/-- Witness for C3 (amended): `buffer_size = 1`,
`number_of_measurements = 2`, two deliveries [5,7] and [11,13]:
accumulator slot 0 ends at (5+7) + (11+13) = 36. -/
theorem accumulate_mode_sums_witness :
    (0 : Nat) < 1 ∧
      (run_acc zbuf zbuf zbuf zbuf 1 1 2 [[5, 7], [11, 13]]).qudi_buffer_address 0
        = zbuf 0 + (([[5, 7], [11, 13]] : List (List Int)).map
          (fun c => ∑ i ∈ Finset.range 2, c.getD (i * 1 + 0) 0)).sum ∧
      (run_acc zbuf zbuf zbuf zbuf 1 1 2 [[5, 7], [11, 13]]).qudi_buffer_address 0
        = 36 :=
  ⟨by decide,
    accumulate_mode_sums zbuf zbuf zbuf zbuf 1 1 2 [[5, 7], [11, 13]] 0
      (by decide),
    by decide⟩

theorem flatten_length_of_uniform (cs : List (List Int)) (bs : Nat)
    (h : ∀ c ∈ cs, c.length = bs) : cs.flatten.length = cs.length * bs := by
  induction cs with
  | nil => simp
  | cons c cs ih =>
    have hc : c.length = bs := h c (by simp)
    have ih' := ih (fun x hx => h x (by simp [hx]))
    simp only [List.flatten_cons, List.length_append, List.length_cons, hc,
      ih', Nat.succ_mul]
    omega

/-- Append mode after any number of in-sync deliveries of `buffer_size`-
sample chunks: bookkeeping fields, slot-id parity, the write cursor
`W = (N * buffer_size) % (L * buffer_size)`, and the full ring content —
each position `p` that has ever been written holds the entry of the
chunks' concatenation at the *last* flat index congruent to `p` modulo
the capacity, i.e. the concatenation wrapped at `L * buffer_size`
samples; unwritten positions keep the host's initial content `r0`. -/
theorem append_foldl_spec (b1 b2 r0 q0 : Nat → Int) (bs L nm : Nat)
    (hbs : 0 < bs) (hL : 0 < L) :
    ∀ cs : List (List Int), (∀ c ∈ cs, c.length = bs) →
      (run_append b1 b2 r0 q0 bs L nm cs).buffer_size = bs ∧
        (run_append b1 b2 r0 q0 bs L nm cs).total_buffer_length = L ∧
        (run_append b1 b2 r0 q0 bs L nm cs).buffer_id =
          ((cs.length % 2 : Nat) : Int) ∧
        (run_append b1 b2 r0 q0 bs L nm cs).current_buffer_position =
          (cs.length * bs) % (L * bs) ∧
        ∀ p, p < L * bs →
          (run_append b1 b2 r0 q0 bs L nm cs).total_buffer_address p =
            if p < cs.length * bs then
              cs.flatten.getD
                (p + (L * bs) * ((cs.length * bs - 1 - p) / (L * bs))) 0
            else r0 p := by
  intro cs
  induction cs using List.reverseRecOn with
  | nil =>
    intro _
    refine ⟨rfl, rfl, rfl, by simp [run_append, initial_state], ?_⟩
    intro p hp
    simp [run_append, initial_state]
  | append_singleton cs c ih =>
    intro hcs
    have hc : c.length = bs := hcs c (by simp)
    have ih' := ih (fun x hx => hcs x (by simp [hx]))
    obtain ⟨hbs', hL', hid, hcbp, hcontent⟩ := ih'
    rw [run_append_snoc]
    set s := run_append b1 b2 r0 q0 bs L nm cs with hs
    set cap := L * bs with hcap_def
    set N := cs.length with hN
    set T := N * bs with hT
    have hcap : 0 < cap := Nat.mul_pos hL hbs
    have hdm : cap * (T / cap) + T % cap = T := Nat.div_add_mod T cap
    set q := T / cap with hq_def
    set W := T % cap with hW_def
    have hWmod : W = N % L * bs := by
      rw [hW_def, hT, hcap_def]
      exact Nat.mul_mod_mul_right bs N L
    have hWlt : W < cap := Nat.mod_lt _ hcap
    have hWbs : W + bs ≤ cap := by
      rw [hWmod, hcap_def]
      have h1 : N % L + 1 ≤ L := Nat.mod_lt N hL
      calc N % L * bs + bs = (N % L + 1) * bs := by rw [Nat.succ_mul]
        _ ≤ L * bs := Nat.mul_le_mul_right bs h1
    have hslot : s.buffer_id = 0 ∨ s.buffer_id = 1 := by
      rw [hid]
      rcases Nat.mod_two_eq_zero_or_one N with h2 | h2 <;> simp [h2]
    obtain ⟨htba, hcbp2, hid2, hbs2, hL2, _⟩ := deliver_eq s c hslot
    have hlen1 : (cs ++ [c]).length = N + 1 := by simp [hN]
    clear_value q W
    clear hq_def hW_def hWmod
    refine ⟨by rw [hbs2, hbs'], by rw [hL2, hL'], ?_, ?_, ?_⟩
    · rw [hid2, hid, hlen1]
      rcases Nat.mod_two_eq_zero_or_one N with h2 | h2
      · have h3 : (N + 1) % 2 = 1 := by omega
        rw [h2, h3]
        norm_num
      · have h3 : (N + 1) % 2 = 0 := by omega
        rw [h2, h3]
        norm_num
    · rw [hcbp2, hbs', hL', hcbp, hlen1]
      have hTb : (N + 1) * bs = cap * q + (W + bs) := by
        rw [Nat.succ_mul]
        omega
      rw [hTb, Nat.mul_add_mod]
      rcases eq_or_lt_of_le hWbs with he | hlt
      · rw [he, Nat.mod_self, if_pos (by omega)]
      · rw [Nat.mod_eq_of_lt hlt, if_neg (by omega)]
    · intro p hp
      rw [htba]
      dsimp only
      rw [hcbp, hbs', hcontent p hp, hlen1]
      have hflat : (cs ++ [c]).flatten = cs.flatten ++ c := by simp
      have hflen : cs.flatten.length = T := by
        rw [hT, hN]
        exact flatten_length_of_uniform cs bs
          (fun x hx => hcs x (by simp [hx]))
      have hTb : (N + 1) * bs = T + bs := by rw [Nat.succ_mul]
      rw [hflat, hTb]
      by_cases hwin : W ≤ p ∧ p < W + bs
      · rw [if_pos hwin, if_pos (show p < T + bs by omega)]
        have hdecomp : T + bs - 1 - p = cap * q + (W + bs - 1 - p) := by
          omega
        have hdiv : (T + bs - 1 - p) / cap = q := by
          rw [hdecomp, Nat.mul_add_div hcap, Nat.div_eq_of_lt (by omega), Nat.add_zero]
        rw [hdiv]
        have hidx : p + cap * q = T + (p - W) := by omega
        rw [hidx]
        rw [List.getD_append_right _ _ _ _ (by rw [hflen]; omega)]
        have hsub : T + (p - W) - cs.flatten.length = p - W := by
          rw [hflen]; omega
        rw [hsub]
      · rw [if_neg hwin]
        by_cases hpT : p < T
        · rw [if_pos hpT, if_pos (show p < T + bs by omega)]
          rcases Nat.lt_or_ge p W with hpW | hpW
          · have hd1 : T - 1 - p = cap * q + (W - 1 - p) := by omega
            have hd2 : T + bs - 1 - p = cap * q + (W + bs - 1 - p) := by
              omega
            have hdiv1 : (T - 1 - p) / cap = q := by
              rw [hd1, Nat.mul_add_div hcap, Nat.div_eq_of_lt (by omega), Nat.add_zero]
            have hdiv2 : (T + bs - 1 - p) / cap = q := by
              rw [hd2, Nat.mul_add_div hcap, Nat.div_eq_of_lt (by omega), Nat.add_zero]
            rw [hdiv1, hdiv2]
            rw [List.getD_append _ _ _ _ (by rw [hflen]; omega)]
          · have hq1 : 1 ≤ q := by
              rcases Nat.eq_zero_or_pos q with h0 | h0
              · have h00 := hdm
                rw [h0, Nat.mul_zero] at h00
                omega
              · exact h0
            obtain ⟨q', hq'⟩ : ∃ q', q = q' + 1 := ⟨q - 1, by omega⟩
            have hdm' : cap * q' + cap + W = T := by
              have h00 := hdm
              rw [hq', Nat.mul_succ] at h00
              omega
            have hd1 : T - 1 - p = cap * q' + (cap + W - 1 - p) := by omega
            have hd2 : T + bs - 1 - p = cap * q' + (cap + W + bs - 1 - p) := by
              omega
            have hdiv1 : (T - 1 - p) / cap = q' := by
              rw [hd1, Nat.mul_add_div hcap, Nat.div_eq_of_lt (by omega), Nat.add_zero]
            have hdiv2 : (T + bs - 1 - p) / cap = q' := by
              rw [hd2, Nat.mul_add_div hcap, Nat.div_eq_of_lt (by omega), Nat.add_zero]
            rw [hdiv1, hdiv2]
            rw [List.getD_append _ _ _ _ (by rw [hflen]; omega)]
        · rw [if_neg hpT]
          have hq0 : q = 0 := by
            rcases Nat.eq_zero_or_pos q with h0 | h0
            · exact h0
            · exfalso
              have h2 : cap ≤ cap * q := Nat.le_mul_of_pos_right cap h0
              omega
          have hWT : W = T := by
            have h00 := hdm
            rw [hq0, Nat.mul_zero] at h00
            omega
          rw [if_neg (show ¬p < T + bs by omega)]

/-- C1: in append mode, for every sequence of N chunk deliveries (slot id
starting at 0, driver alternating in sync), the ring's logical content
equals the concatenation of the N delivered chunks truncated/wrapped at
`L*buffer_size` samples: position `p` holds the concatenation entry at
the last flat index congruent to `p` modulo the capacity (positions never
written keep the initial content), and the write cursor ends at
`(N*buffer_size) % (L*buffer_size)`. -/
theorem append_mode_ring_is_wrapped_concat (b1 b2 r0 q0 : Nat → Int)
    (bs L nm : Nat) (hbs : 0 < bs) (hL : 0 < L)
    (cs : List (List Int)) (hcs : ∀ c ∈ cs, c.length = bs) :
    (run_append b1 b2 r0 q0 bs L nm cs).current_buffer_position =
        (cs.length * bs) % (L * bs) ∧
      ∀ p, p < L * bs →
        (run_append b1 b2 r0 q0 bs L nm cs).total_buffer_address p =
          if p < cs.length * bs then
            cs.flatten.getD
              (p + (L * bs) * ((cs.length * bs - 1 - p) / (L * bs))) 0
          else r0 p :=
  ⟨(append_foldl_spec b1 b2 r0 q0 bs L nm hbs hL cs hcs).2.2.2.1,
    (append_foldl_spec b1 b2 r0 q0 bs L nm hbs hL cs hcs).2.2.2.2⟩

/-- Witness for C1: the spec scenario `buffer_size = 4`, `L = 2`,
chunks [1,2,3,4] then [5,6,7,8]: the theorem instance, plus the concrete
readings `W = 0` (wrapped at 8) and ring positions [0..7] = 1..8. -/
theorem append_mode_ring_is_wrapped_concat_witness :
    ((run_append zbuf zbuf zbuf zbuf 4 2 1
          [[1, 2, 3, 4], [5, 6, 7, 8]]).current_buffer_position =
        (([[1, 2, 3, 4], [5, 6, 7, 8]] : List (List Int)).length * 4) %
          (2 * 4) ∧
      ∀ p, p < 2 * 4 →
        (run_append zbuf zbuf zbuf zbuf 4 2 1
            [[1, 2, 3, 4], [5, 6, 7, 8]]).total_buffer_address p =
          if p < ([[1, 2, 3, 4], [5, 6, 7, 8]] :
              List (List Int)).length * 4 then
            ([[1, 2, 3, 4], [5, 6, 7, 8]] : List (List Int)).flatten.getD
              (p + 2 * 4 *
                ((([[1, 2, 3, 4], [5, 6, 7, 8]] :
                  List (List Int)).length * 4 - 1 - p) / (2 * 4))) 0
          else zbuf p) ∧
      (run_append zbuf zbuf zbuf zbuf 4 2 1
          [[1, 2, 3, 4], [5, 6, 7, 8]]).current_buffer_position = 0 ∧
      ∀ p, p < 8 →
        (run_append zbuf zbuf zbuf zbuf 4 2 1
            [[1, 2, 3, 4], [5, 6, 7, 8]]).total_buffer_address p =
          List.getD [1, 2, 3, 4, 5, 6, 7, 8] p 0 :=
  ⟨append_mode_ring_is_wrapped_concat zbuf zbuf zbuf zbuf 4 2 1 (by decide)
      (by decide) [[1, 2, 3, 4], [5, 6, 7, 8]] (by decide),
    by decide, by decide⟩

